import Mathlib

/-!
Shallow embedding of the simulated-annealing MaxCut engine from
`Modules/Applications/MaxCut Algorithms/simulated_annealing.ipynb`.

The notebook defines two functions:

* `temperature_decay(num_steps, graph)` — the annealing loop: builds the
  deterministic initial bipartition, then for `k in range(num_steps)`
  computes `temperature = init_temperature * (1 - (k + 1) / num_steps)`
  (note: `init_temperature` here is a module-level global, not a parameter),
  proposes a single-flip candidate at a uniformly random index, evaluates it
  with `obj_maxcut`, appends the candidate score to `scores`, and applies the
  Metropolis acceptance rule with probability
  `exp(-(curr_score - new_score) / (temperature + 1e-6))`.
* `simulated_annealing(init_temperature, num_steps, graph)` — a wrapper that
  calls `temperature_decay(num_steps, graph)` (its own `init_temperature`
  parameter is never passed down) and returns
  `(curr_score, curr_solution, scores)`.

Scores and temperatures are modelled exactly over `ℚ`; the uniform draw `u`
and the exponential live in `ℝ`.  The random stream is modelled as an explicit
list of draws `(idx, u)`, one per loop iteration, with `idx` ranging over
`[0, num_nodes)` exactly as `np.random.randint(0, num_nodes)` does (for
`num_nodes = 0` no draw exists: `randint(0, 0)` raises).  The loop itself is a
small-step relation `Step` / `Run` because the acceptance test compares
`Real.exp` with the draw, which is not decidable.
-/

/-- A graph as the engine consumes it: a node count and a list of weighted
edges `(u, v, w)`.  `networkx` graph reading is peripheral I/O. -/
structure Graph where
  numNodes : ℕ
  edges : List (ℕ × ℕ × ℚ)

/-- Modelled from the spec: `util.obj_maxcut` is imported from `util`, which
is not under `src/`.  Spec: "sum, over every edge (u,v,w) in graph, `w` if
`solution[u] != solution[v]`, else 0. Deterministic, pure".  Out-of-range
indices (a caller bug per the spec) read the default label 0. -/
def obj_maxcut (solution : List ℕ) (g : Graph) : ℚ :=
  (g.edges.map
    (fun e => if solution.getD e.1 0 ≠ solution.getD e.2.1 0 then e.2.2 else 0)).sum

/-- Source: `init_solution = [0] * int(graph.number_of_nodes() / 2) + [1] *
int(graph.number_of_nodes() / 2)` — both halves use floor division. -/
def init_solution (g : Graph) : List ℕ :=
  List.replicate (g.numNodes / 2) 0 ++ List.replicate (g.numNodes / 2) 1

/-- Source: `temperature = init_temperature * (1 - (k + 1) / num_steps)`
(true division, modelled exactly in `ℚ`). -/
def temperature (init_temperature : ℚ) (num_steps : ℕ) (k : ℕ) : ℚ :=
  init_temperature * (1 - ((k : ℚ) + 1) / (num_steps : ℚ))

/-- The constant `1e-6` added to the temperature in the acceptance formula. -/
def eps : ℚ := 1e-6

/-- Source: `new_solution = copy.deepcopy(curr_solution)` followed by
`new_solution[idx] = (new_solution[idx] + 1) % 2`. -/
def propose (sol : List ℕ) (idx : ℕ) : List ℕ :=
  sol.set idx ((sol.getD idx 0 + 1) % 2)

/-- The engine's mutable state: current solution, its score, and the list
of candidate scores appended each step. -/
structure SAState where
  curr_solution : List ℕ
  curr_score : ℚ
  scores : List ℚ
deriving DecidableEq

/-- State at entry to the loop: the deterministic bipartition and its score,
with an empty trace. -/
def initState (g : Graph) : SAState :=
  ⟨init_solution g, obj_maxcut (init_solution g) g, []⟩

/-- State after an accepted move at index `idx`: both `curr_solution` and
`curr_score` are replaced by the candidate and its score, and the candidate
score is appended to the trace. -/
def accepted_state (g : Graph) (s : SAState) (idx : ℕ) : SAState :=
  ⟨propose s.curr_solution idx,
   obj_maxcut (propose s.curr_solution idx) g,
   s.scores ++ [obj_maxcut (propose s.curr_solution idx) g]⟩

/-- State after a rejected move at index `idx`: `curr_solution` and
`curr_score` are untouched, but the candidate score was still evaluated and
appended to the trace. -/
def rejected_state (g : Graph) (s : SAState) (idx : ℕ) : SAState :=
  ⟨s.curr_solution, s.curr_score,
   s.scores ++ [obj_maxcut (propose s.curr_solution idx) g]⟩

/-- One iteration of the loop body at step index `k`, consuming the random
draws `idx` (from `np.random.randint(0, num_nodes)`, hence in range) and
`u` (from `random.random()`).  `delta_e = curr_score - new_score`; if
`delta_e < 0` accept unconditionally, else accept iff
`exp(-delta_e / (temperature + 1e-6)) > u`. -/
inductive Step (g : Graph) (init_temperature : ℚ) (num_steps : ℕ) (k : ℕ) :
    SAState → ℕ → ℝ → SAState → Prop
  | improve (s : SAState) (idx : ℕ) (u : ℝ)
      (hidx : idx < s.curr_solution.length)
      (hlt : s.curr_score - obj_maxcut (propose s.curr_solution idx) g < 0) :
      Step g init_temperature num_steps k s idx u (accepted_state g s idx)
  | accept (s : SAState) (idx : ℕ) (u : ℝ)
      (hidx : idx < s.curr_solution.length)
      (hge : 0 ≤ s.curr_score - obj_maxcut (propose s.curr_solution idx) g)
      (hgt : Real.exp
          (-((s.curr_score - obj_maxcut (propose s.curr_solution idx) g : ℚ) : ℝ) /
            ((temperature init_temperature num_steps k + eps : ℚ) : ℝ)) > u) :
      Step g init_temperature num_steps k s idx u (accepted_state g s idx)
  | reject (s : SAState) (idx : ℕ) (u : ℝ)
      (hidx : idx < s.curr_solution.length)
      (hge : 0 ≤ s.curr_score - obj_maxcut (propose s.curr_solution idx) g)
      (hng : ¬ Real.exp
          (-((s.curr_score - obj_maxcut (propose s.curr_solution idx) g : ℚ) : ℝ) /
            ((temperature init_temperature num_steps k + eps : ℚ) : ℝ)) > u) :
      Step g init_temperature num_steps k s idx u (rejected_state g s idx)

/-- The loop `for k in range(num_steps)`, starting from step index `k` and
consuming one draw pair per iteration. -/
inductive Run (g : Graph) (init_temperature : ℚ) (num_steps : ℕ) :
    ℕ → SAState → List (ℕ × ℝ) → SAState → Prop
  | nil (k : ℕ) (s : SAState) : Run g init_temperature num_steps k s [] s
  | cons {k : ℕ} {s s' s'' : SAState} {idx : ℕ} {u : ℝ} {ds : List (ℕ × ℝ)}
      (hstep : Step g init_temperature num_steps k s idx u s')
      (hrun : Run g init_temperature num_steps (k + 1) s' ds s'') :
      Run g init_temperature num_steps k s ((idx, u) :: ds) s''

/-- `temperature_decay(num_steps, graph)` relative to a draw stream: the loop
runs once per draw, with exactly `num_steps` draws, and returns
`(scores, init_score, curr_score, curr_solution)`.  The `init_temperature`
read inside the loop is the module-level global. -/
def temperature_decay (g : Graph) (init_temperature : ℚ) (num_steps : ℕ)
    (draws : List (ℕ × ℝ)) (result : List ℚ × ℚ × ℚ × List ℕ) : Prop :=
  draws.length = num_steps ∧
  ∃ final : SAState,
    Run g init_temperature num_steps 0 (initState g) draws final ∧
    result = (final.scores, obj_maxcut (init_solution g) g,
              final.curr_score, final.curr_solution)

/-- `simulated_annealing(init_temperature, num_steps, graph)`: calls
`temperature_decay(num_steps, graph)` — the `init_temperature` argument is
never passed down; the loop reads the module-level global, modelled here as
`global_init_temperature`.  Returns `(curr_score, curr_solution, scores)`. -/
def simulated_annealing (init_temperature : ℚ) (global_init_temperature : ℚ)
    (num_steps : ℕ) (g : Graph) (draws : List (ℕ × ℝ))
    (result : ℚ × List ℕ × List ℚ) : Prop :=
  ∃ scores init_score curr_score curr_solution,
    temperature_decay g global_init_temperature num_steps draws
      (scores, init_score, curr_score, curr_solution) ∧
    result = (curr_score, curr_solution, scores)

/-- Every label of a solution is 0 or 1. -/
def BinaryLabels (sol : List ℕ) : Prop := ∀ x ∈ sol, x = 0 ∨ x = 1

/-- The engine's score field matches an independent re-evaluation of its
current solution. -/
def Consistent (g : Graph) (s : SAState) : Prop :=
  s.curr_score = obj_maxcut s.curr_solution g

/-- A two-node graph with a single unit edge; its bipartition `[0, 1]` cuts
the edge. -/
def gEx : Graph := ⟨2, [(0, 1, 1)]⟩

/-- A two-node graph with no edges: every solution scores 0, so every step
is a tie. -/
def gFree : Graph := ⟨2, []⟩

theorem flip_ne (x : ℕ) : (x + 1) % 2 ≠ x := by omega

theorem propose_length (sol : List ℕ) (idx : ℕ) :
    (propose sol idx).length = sol.length :=
  List.length_set sol idx _

theorem propose_getD_self (sol : List ℕ) (idx : ℕ) (h : idx < sol.length) :
    (propose sol idx).getD idx 0 = (sol.getD idx 0 + 1) % 2 := by
  rw [propose, List.getD_eq_getElem?_getD, List.getElem?_set_eq_of_lt _ h]
  rfl

theorem propose_getD_other (sol : List ℕ) (idx j : ℕ) (h : j ≠ idx) :
    (propose sol idx).getD j 0 = sol.getD j 0 := by
  rw [propose, List.getD_eq_getElem?_getD, List.getElem?_set_ne (Ne.symm h),
    List.getD_eq_getElem?_getD]

theorem propose_binary (sol : List ℕ) (idx : ℕ) (h : BinaryLabels sol) :
    BinaryLabels (propose sol idx) := by
  intro x hx
  rcases List.mem_or_eq_of_mem_set hx with hmem | rfl
  · exact h x hmem
  · omega

theorem step_idx_lt {g : Graph} {initT : ℚ} {n k : ℕ} {s : SAState} {idx : ℕ}
    {u : ℝ} {s' : SAState} (h : Step g initT n k s idx u s') :
    idx < s.curr_solution.length := by
  cases h with
  | improve hidx _ => exact hidx
  | accept hidx _ _ => exact hidx
  | reject hidx _ _ => exact hidx

theorem step_scores {g : Graph} {initT : ℚ} {n k : ℕ} {s : SAState} {idx : ℕ}
    {u : ℝ} {s' : SAState} (h : Step g initT n k s idx u s') :
    s'.scores = s.scores ++ [obj_maxcut (propose s.curr_solution idx) g] := by
  cases h with
  | improve _ _ => rfl
  | accept _ _ _ => rfl
  | reject _ _ _ => rfl

theorem step_deterministic {g : Graph} {initT : ℚ} {n k : ℕ} {s : SAState}
    {idx : ℕ} {u : ℝ} {s1 s2 : SAState}
    (h1 : Step g initT n k s idx u s1) (h2 : Step g initT n k s idx u s2) :
    s1 = s2 := by
  cases h1 with
  | improve hidx hlt =>
    cases h2 with
    | improve _ _ => rfl
    | accept _ _ _ => rfl
    | reject _ hge _ => exact absurd hlt (not_lt.mpr hge)
  | accept hidx hge hgt =>
    cases h2 with
    | improve _ _ => rfl
    | accept _ _ _ => rfl
    | reject _ _ hng => exact absurd hgt hng
  | reject hidx hge hng =>
    cases h2 with
    | improve _ hlt => exact absurd hlt (not_lt.mpr hge)
    | accept _ _ hgt => exact absurd hgt hng
    | reject _ _ _ => rfl

theorem run_deterministic {g : Graph} {initT : ℚ} {n : ℕ} {k : ℕ}
    {s : SAState} {ds : List (ℕ × ℝ)} {s1 : SAState}
    (h1 : Run g initT n k s ds s1) :
    ∀ {s2 : SAState}, Run g initT n k s ds s2 → s1 = s2 := by
  induction h1 with
  | nil k s =>
    intro s2 h2
    cases h2
    rfl
  | cons hstep hrun ih =>
    intro s2 h2
    cases h2 with
    | cons hstep' hrun' =>
      rw [← step_deterministic hstep hstep'] at hrun'
      exact ih hrun'

theorem run_scores_length {g : Graph} {initT : ℚ} {n : ℕ} {k : ℕ}
    {s : SAState} {ds : List (ℕ × ℝ)} {s' : SAState}
    (h : Run g initT n k s ds s') :
    s'.scores.length = s.scores.length + ds.length := by
  induction h with
  | nil k s => rfl
  | cons hstep hrun ih =>
    rw [ih, step_scores hstep]
    simp
    omega

theorem run_preserves {g : Graph} {initT : ℚ} {n : ℕ} {P : SAState → Prop}
    (hP : ∀ k s idx u s', Step g initT n k s idx u s' → P s → P s') :
    ∀ {k : ℕ} {s : SAState} {ds : List (ℕ × ℝ)} {s' : SAState},
      Run g initT n k s ds s' → P s → P s' := by
  intro k s ds s' h
  induction h with
  | nil k s => exact id
  | cons hstep hrun ih => exact fun hs => ih (hP _ _ _ _ _ hstep hs)

theorem step_preserves_consistent {g : Graph} {initT : ℚ} {n k : ℕ}
    {s : SAState} {idx : ℕ} {u : ℝ} {s' : SAState}
    (h : Step g initT n k s idx u s') (hc : Consistent g s) :
    Consistent g s' := by
  cases h with
  | improve _ _ => rfl
  | accept _ _ _ => rfl
  | reject _ _ _ => exact hc

theorem step_preserves_binary {g : Graph} {initT : ℚ} {n k : ℕ}
    {s : SAState} {idx : ℕ} {u : ℝ} {s' : SAState}
    (h : Step g initT n k s idx u s') (hb : BinaryLabels s.curr_solution) :
    BinaryLabels s'.curr_solution := by
  cases h with
  | improve _ _ => exact propose_binary _ _ hb
  | accept _ _ _ => exact propose_binary _ _ hb
  | reject _ _ _ => exact hb

theorem step_iff_improve {g : Graph} {initT : ℚ} {n k : ℕ} {s : SAState}
    {idx : ℕ} {u : ℝ} {s' : SAState} (hidx : idx < s.curr_solution.length)
    (hlt : s.curr_score - obj_maxcut (propose s.curr_solution idx) g < 0) :
    Step g initT n k s idx u s' ↔ s' = accepted_state g s idx := by
  constructor
  · intro hstep
    cases hstep with
    | improve _ _ => rfl
    | accept _ _ _ => rfl
    | reject _ hge _ => exact absurd hlt (not_lt.mpr hge)
  · rintro rfl
    exact Step.improve s idx u hidx hlt

theorem step_iff_accept {g : Graph} {initT : ℚ} {n k : ℕ} {s : SAState}
    {idx : ℕ} {u : ℝ} {s' : SAState} (hidx : idx < s.curr_solution.length)
    (hge : 0 ≤ s.curr_score - obj_maxcut (propose s.curr_solution idx) g)
    (hgt : Real.exp
        (-((s.curr_score - obj_maxcut (propose s.curr_solution idx) g : ℚ) : ℝ) /
          ((temperature initT n k + eps : ℚ) : ℝ)) > u) :
    Step g initT n k s idx u s' ↔ s' = accepted_state g s idx := by
  constructor
  · intro hstep
    cases hstep with
    | improve _ _ => rfl
    | accept _ _ _ => rfl
    | reject _ _ hng => exact absurd hgt hng
  · rintro rfl
    exact Step.accept s idx u hidx hge hgt

theorem step_iff_reject {g : Graph} {initT : ℚ} {n k : ℕ} {s : SAState}
    {idx : ℕ} {u : ℝ} {s' : SAState} (hidx : idx < s.curr_solution.length)
    (hge : 0 ≤ s.curr_score - obj_maxcut (propose s.curr_solution idx) g)
    (hng : ¬ Real.exp
        (-((s.curr_score - obj_maxcut (propose s.curr_solution idx) g : ℚ) : ℝ) /
          ((temperature initT n k + eps : ℚ) : ℝ)) > u) :
    Step g initT n k s idx u s' ↔ s' = rejected_state g s idx := by
  constructor
  · intro hstep
    cases hstep with
    | improve _ hlt => exact absurd hlt (not_lt.mpr hge)
    | accept _ _ hgt => exact absurd hgt hng
    | reject _ _ _ => rfl
  · rintro rfl
    exact Step.reject s idx u hidx hge hng

/-- All solutions score 0 on the edgeless graph `gFree`. -/
theorem gFree_score (sol : List ℕ) : obj_maxcut sol gFree = 0 := by
  simp [obj_maxcut, gFree]

/-- C1: per-step acceptance rule with `delta = currScore - candScore`: if
`delta < 0` the candidate is accepted unconditionally; otherwise
`prob = exp(-delta / (T + 1e-6))` is computed and the candidate is accepted
iff `prob > u` for the fresh uniform draw `u`; in particular, for a tie
(`delta = 0`) `prob = exp 0 = 1 > u`, so an equal-score candidate is always
accepted. -/
theorem acceptance_rule (g : Graph) (initT : ℚ) (n k : ℕ) (s : SAState)
    (idx : ℕ) (u : ℝ) (s' : SAState)
    (hidx : idx < s.curr_solution.length) (hu0 : 0 ≤ u) (hu1 : u < 1) :
    (s.curr_score - obj_maxcut (propose s.curr_solution idx) g < 0 →
      (Step g initT n k s idx u s' ↔ s' = accepted_state g s idx)) ∧
    (0 ≤ s.curr_score - obj_maxcut (propose s.curr_solution idx) g →
      (Real.exp
          (-((s.curr_score - obj_maxcut (propose s.curr_solution idx) g : ℚ) : ℝ) /
            ((temperature initT n k + eps : ℚ) : ℝ)) > u →
        (Step g initT n k s idx u s' ↔ s' = accepted_state g s idx)) ∧
      (¬ Real.exp
          (-((s.curr_score - obj_maxcut (propose s.curr_solution idx) g : ℚ) : ℝ) /
            ((temperature initT n k + eps : ℚ) : ℝ)) > u →
        (Step g initT n k s idx u s' ↔ s' = rejected_state g s idx))) ∧
    (s.curr_score - obj_maxcut (propose s.curr_solution idx) g = 0 →
      (Step g initT n k s idx u s' ↔ s' = accepted_state g s idx)) := by
  refine ⟨fun hlt => step_iff_improve hidx hlt,
    fun hge => ⟨fun hgt => step_iff_accept hidx hge hgt,
      fun hng => step_iff_reject hidx hge hng⟩,
    fun heq => step_iff_accept hidx (le_of_eq heq.symm) ?_⟩
  have hc : ((s.curr_score - obj_maxcut (propose s.curr_solution idx) g : ℚ) : ℝ) = 0 := by
    rw [heq]; exact Rat.cast_zero
  rw [hc]
  simpa [Real.exp_zero] using hu1

/-- C1 witness: on the edgeless two-node graph every flip is a tie, and with
`u = 1/3` the tie is accepted: the step relation holds exactly at the
accepted state. -/
theorem acceptance_rule_witness :
    Step gFree 4 2 0 (initState gFree) 0 (1/3)
      (accepted_state gFree (initState gFree) 0) := by
  have h := acceptance_rule gFree 4 2 0 (initState gFree) 0 (1/3)
    (accepted_state gFree (initState gFree) 0) (by decide) (by norm_num) (by norm_num)
  exact (h.2.2 (by simp [initState, gFree_score])).mpr rfl

/-- C2: the temperature at step k is `initT * (1 - (k+1)/numSteps)`, hence
`T 0 = initT * (1 - 1/numSteps)` and `T (numSteps-1) = 0` exactly; the
acceptance formula divides by `T + 1e-6`, which at the final step equals
`eps = 1e-6 ≠ 0`, so no division by zero occurs. -/
theorem temperature_schedule (initT : ℚ) (n : ℕ) (hn : 0 < n) :
    (∀ k : ℕ, temperature initT n k = initT * (1 - ((k : ℚ) + 1) / (n : ℚ))) ∧
    temperature initT n 0 = initT * (1 - 1 / (n : ℚ)) ∧
    temperature initT n (n - 1) = 0 ∧
    temperature initT n (n - 1) + eps = eps ∧ eps ≠ 0 := by
  obtain ⟨m, rfl⟩ : ∃ m, n = m + 1 := ⟨n - 1, by omega⟩
  have hz : temperature initT (m + 1) (m + 1 - 1) = 0 := by
    show temperature initT (m + 1) m = 0
    unfold temperature
    have hm : ((m : ℚ) + 1) ≠ 0 := by positivity
    push_cast
    field_simp
  exact ⟨fun k => rfl, by norm_num [temperature], hz, by rw [hz, zero_add],
    by norm_num [eps]⟩

/-- C2 witness: with `initT = 4` and `numSteps = 5`, the final-step
temperature is exactly 0 and the acceptance denominator is `eps`. -/
theorem temperature_schedule_witness :
    0 < 5 ∧ temperature 4 5 (5 - 1) = 0 ∧ temperature 4 5 (5 - 1) + eps = eps :=
  ⟨by decide, (temperature_schedule 4 5 (by decide)).2.2.1,
    (temperature_schedule 4 5 (by decide)).2.2.2.1⟩

/-- C3 (code bug): for a graph with an odd node count the initializer
`[0] * int(N/2) + [1] * int(N/2)` produces a solution of length `2 * (N / 2)
= N - 1`, not `N`: at `N = 3` the initial solution has length 2, leaving one
node unlabeled, contrary to the claimed `⌊N/2⌋` zeros followed by `⌈N/2⌉`
ones of total length `N`. -/
theorem init_solution_length_bug :
    (init_solution ⟨3, []⟩).length = 2 ∧ (⟨3, []⟩ : Graph).numNodes = 3 :=
  ⟨rfl, rfl⟩

/-- C4 counterexample: with `num_steps = 0` on a nonempty graph the engine
completes normally — the loop body never runs and
`(scores, init_score, curr_score, curr_solution) = ([], 1, 1, [0, 1])` is
returned — rather than failing fast with an `InvalidParameter` error. -/
theorem validation_counterexample :
    temperature_decay gEx 4 0 [] ([], 1, 1, [0, 1]) := by
  refine ⟨rfl, initState gEx, Run.nil 0 (initState gEx), ?_⟩
  have h1 : init_solution gEx = [0, 1] := by decide
  have h2 : obj_maxcut [0, 1] gEx = 1 := by
    norm_num [obj_maxcut, gEx, List.getD, List.getElem_cons_succ,
      List.getElem_cons_zero] <;> decide
  simp [initState, h1, h2]

/-- C4 (amended): the code performs no parameter validation: a call with
`num_steps = 0` completes normally, returning the initial score and solution
with an empty trace; and on an empty graph no loop step is possible (the
random index draw `np.random.randint(0, 0)` has no value and raises inside
the loop, not at initialization). -/
theorem no_parameter_validation (g : Graph) (initT : ℚ) :
    temperature_decay g initT 0 []
      ([], obj_maxcut (init_solution g) g, obj_maxcut (init_solution g) g,
        init_solution g) ∧
    (∀ gE : Graph, gE.numNodes = 0 →
      ∀ (n k idx : ℕ) (u : ℝ) (s' : SAState),
        ¬ Step gE initT n k (initState gE) idx u s') := by
  constructor
  · exact ⟨rfl, initState g, Run.nil 0 (initState g), rfl⟩
  · intro gE hE n k idx u s' hstep
    have hlt := step_idx_lt hstep
    simp [initState, init_solution, hE] at hlt

/-- The empty graph. -/
def gEmpty : Graph := ⟨0, []⟩

/-- C4 witness: concrete instances of the amended claim — a normal completion
with `num_steps = 0` on `gEx`, and no possible step from the empty graph. -/
theorem no_parameter_validation_witness :
    temperature_decay gEx 4 0 []
      ([], obj_maxcut (init_solution gEx) gEx, obj_maxcut (init_solution gEx) gEx,
        init_solution gEx) ∧
    ¬ Step gEmpty 4 1 0 (initState gEmpty) 0 (1/2) (initState gEmpty) :=
  ⟨(no_parameter_validation gEx 4).1,
    (no_parameter_validation gEx 4).2 gEmpty rfl 1 0 0 (1/2) (initState gEmpty)⟩

/-- C5: the candidate is the current solution deep-copied with exactly one
position flipped via `(x+1) % 2`: it has the same length, differs from the
solution at step entry exactly at the drawn index, and all labels of the
candidate and of the post-step solution remain in {0,1}. -/
theorem single_flip_candidate (g : Graph) (initT : ℚ) (n k idx : ℕ) (u : ℝ)
    (s s' : SAState) (hb : BinaryLabels s.curr_solution)
    (hstep : Step g initT n k s idx u s') :
    (propose s.curr_solution idx).length = s.curr_solution.length ∧
    (propose s.curr_solution idx).getD idx 0 ≠ s.curr_solution.getD idx 0 ∧
    (∀ j, j ≠ idx →
      (propose s.curr_solution idx).getD j 0 = s.curr_solution.getD j 0) ∧
    BinaryLabels (propose s.curr_solution idx) ∧
    BinaryLabels s'.curr_solution := by
  have hidx := step_idx_lt hstep
  refine ⟨propose_length _ _, ?_, fun j hj => propose_getD_other _ _ _ hj,
    propose_binary _ _ hb, step_preserves_binary hstep hb⟩
  rw [propose_getD_self _ _ hidx]
  exact flip_ne _

/-- A concrete accepted tie step on the edgeless graph, used to evaluate the
claims on a concrete run. -/
theorem gFree_step : Step gFree 4 1 0 (initState gFree) 0 (1/2)
    (accepted_state gFree (initState gFree) 0) := by
  apply Step.accept
  · decide
  · simp [initState, gFree_score]
  · have hc : ((initState gFree).curr_score -
        obj_maxcut (propose (initState gFree).curr_solution 0) gFree : ℚ) = 0 := by
      simp [initState, gFree_score]
    rw [hc]
    norm_num [Real.exp_zero]

/-- C5 witness: the concrete step `gFree_step` has a binary current solution,
and the candidate differs from it at the drawn index 0. -/
theorem single_flip_candidate_witness :
    BinaryLabels (initState gFree).curr_solution ∧
    (propose (initState gFree).curr_solution 0).getD 0 0 ≠
      (initState gFree).curr_solution.getD 0 0 := by
  have hb : BinaryLabels (initState gFree).curr_solution := by
    unfold BinaryLabels
    decide
  exact ⟨hb, (single_flip_candidate gFree 4 1 0 0 (1/2) (initState gFree)
    (accepted_state gFree (initState gFree) 0) hb gFree_step).2.1⟩

/-- The one-step run on the edgeless graph. -/
theorem gFree_run : Run gFree 4 1 0 (initState gFree) [(0, 1/2)]
    (accepted_state gFree (initState gFree) 0) :=
  Run.cons gFree_step (Run.nil 1 (accepted_state gFree (initState gFree) 0))

/-- The completed `temperature_decay` call on the edgeless graph with one
step: the tie candidate `[1, 1]` is accepted and the trace is `[0]`. -/
theorem gFree_decay : temperature_decay gFree 4 1 [(0, 1/2)] ([0], 0, 0, [1, 1]) := by
  refine ⟨rfl, accepted_state gFree (initState gFree) 0, gFree_run, ?_⟩
  have hsol : propose (init_solution gFree) 0 = [1, 1] := by decide
  simp [accepted_state, initState, hsol, gFree_score]

/-- C6: the trace receives the candidate score exactly once per step,
accepted or not, so every completed run has `len(trace) == numSteps`. -/
theorem trace_length (g : Graph) (initT : ℚ) (n : ℕ) (draws : List (ℕ × ℝ))
    (result : List ℚ × ℚ × ℚ × List ℕ)
    (h : temperature_decay g initT n draws result) :
    result.1.length = n ∧
    ∀ (k : ℕ) (s : SAState) (idx : ℕ) (u : ℝ) (s' : SAState),
      Step g initT n k s idx u s' →
      s'.scores = s.scores ++ [obj_maxcut (propose s.curr_solution idx) g] := by
  obtain ⟨hlen, final, hrun, rfl⟩ := h
  refine ⟨?_, fun k s idx u s' hstep => step_scores hstep⟩
  have h2 := run_scores_length hrun
  simp only [initState, List.length_nil, Nat.zero_add] at h2
  simpa [h2] using hlen

/-- C6 witness: the concrete one-step run has a trace of length 1. -/
theorem trace_length_witness :
    temperature_decay gFree 4 1 [(0, 1/2)] ([0], 0, 0, [1, 1]) ∧
    ([(0 : ℚ)] : List ℚ).length = 1 :=
  ⟨gFree_decay, (trace_length gFree 4 1 [(0, 1/2)] ([0], 0, 0, [1, 1]) gFree_decay).1⟩

/-- C7: when a step's candidate is rejected (`delta ≥ 0` and `prob ≤ u`), the
step relates the entry state exactly to the state with `current` and
`currScore` unchanged, while the candidate's score (one Evaluator call) was
still appended to the trace and the draw `u` was consumed by the comparison. -/
theorem rejected_step_frame (g : Graph) (initT : ℚ) (n k idx : ℕ) (u : ℝ)
    (s s' : SAState) (hidx : idx < s.curr_solution.length)
    (hge : 0 ≤ s.curr_score - obj_maxcut (propose s.curr_solution idx) g)
    (hng : ¬ Real.exp
        (-((s.curr_score - obj_maxcut (propose s.curr_solution idx) g : ℚ) : ℝ) /
          ((temperature initT n k + eps : ℚ) : ℝ)) > u) :
    (Step g initT n k s idx u s' ↔ s' = rejected_state g s idx) ∧
    (rejected_state g s idx).curr_solution = s.curr_solution ∧
    (rejected_state g s idx).curr_score = s.curr_score ∧
    (rejected_state g s idx).scores =
      s.scores ++ [obj_maxcut (propose s.curr_solution idx) g] :=
  ⟨step_iff_reject hidx hge hng, rfl, rfl, rfl⟩

/-- The score of the bipartition `[0, 1]` on the one-edge graph is 1. -/
theorem gEx_score_01 : obj_maxcut [0, 1] gEx = 1 := by
  norm_num [obj_maxcut, gEx, List.getD, List.getElem_cons_succ,
    List.getElem_cons_zero] <;> decide

/-- The score of the uncut assignment `[1, 1]` on the one-edge graph is 0. -/
theorem gEx_score_11 : obj_maxcut [1, 1] gEx = 0 := by
  norm_num [obj_maxcut, gEx, List.getD, List.getElem_cons_succ,
    List.getElem_cons_zero] <;> decide

/-- C7 witness: on the one-edge graph, flipping node 0 away from the cut
(`delta = 1 ≥ 0`) at the final step (`T = 0`, so `prob = exp(-10^6) ≤ 1/2`)
is rejected: the step relation holds exactly at the frame-preserving state. -/
theorem rejected_step_frame_witness :
    Step gEx 4 1 0 (initState gEx) 0 (1/2) (rejected_state gEx (initState gEx) 0) := by
  have hinit : init_solution gEx = [0, 1] := by decide
  have hprop : propose (initState gEx).curr_solution 0 = [1, 1] := by decide
  have hscore : (initState gEx).curr_score = 1 := by
    show obj_maxcut (init_solution gEx) gEx = 1
    rw [hinit, gEx_score_01]
  have hcand : obj_maxcut (propose (initState gEx).curr_solution 0) gEx = 0 := by
    rw [hprop, gEx_score_11]
  have hge : 0 ≤ (initState gEx).curr_score -
      obj_maxcut (propose (initState gEx).curr_solution 0) gEx := by
    rw [hscore, hcand]
    norm_num
  have harg : (-(((initState gEx).curr_score -
        obj_maxcut (propose (initState gEx).curr_solution 0) gEx : ℚ) : ℝ) /
      ((temperature 4 1 0 + eps : ℚ) : ℝ)) = -1000000 := by
    rw [hscore, hcand]
    have ht : (temperature 4 1 0 + eps : ℚ) = 1/1000000 := by
      norm_num [temperature, eps]
    rw [ht]
    push_cast
    norm_num
  have hng : ¬ Real.exp
      (-(((initState gEx).curr_score -
          obj_maxcut (propose (initState gEx).curr_solution 0) gEx : ℚ) : ℝ) /
        ((temperature 4 1 0 + eps : ℚ) : ℝ)) > (1/2 : ℝ) := by
    rw [harg]
    intro hgt
    have h1 : Real.exp (-1000000 : ℝ) ≤ Real.exp (-1) :=
      Real.exp_le_exp.mpr (by norm_num)
    have h3 : (2 : ℝ) < Real.exp 1 := by
      linarith [Real.add_one_lt_exp (by norm_num : (1 : ℝ) ≠ 0)]
    have h2 : Real.exp (-1 : ℝ) < 1/2 := by
      rw [Real.exp_neg]
      have h4 := inv_strictAnti₀ (by norm_num : (0 : ℝ) < 2) h3
      simpa using h4
    linarith
  exact (rejected_step_frame gEx 4 1 0 0 (1/2) (initState gEx)
    (rejected_state gEx (initState gEx) 0) (by decide) hge hng).1.mpr rfl

/-- C8: score consistency — after every completed run the returned
`curr_score` equals an independent re-evaluation of the returned
`curr_solution`, and the initial score equals the evaluation of the initial
solution (score and solution are only ever updated together). -/
theorem score_consistency (g : Graph) (initT : ℚ) (n : ℕ)
    (draws : List (ℕ × ℝ)) (result : List ℚ × ℚ × ℚ × List ℕ)
    (h : temperature_decay g initT n draws result) :
    result.2.2.1 = obj_maxcut result.2.2.2 g ∧
    (initState g).curr_score = obj_maxcut (initState g).curr_solution g := by
  obtain ⟨hlen, final, hrun, rfl⟩ := h
  have hinv : Consistent g final :=
    run_preserves (fun k s idx u s' hstep hc => step_preserves_consistent hstep hc)
      hrun rfl
  exact ⟨hinv, rfl⟩

/-- C8 witness: on the concrete one-step run the returned score 0 equals the
re-evaluation of the returned solution `[1, 1]`. -/
theorem score_consistency_witness :
    temperature_decay gFree 4 1 [(0, 1/2)] ([0], 0, 0, [1, 1]) ∧
    (0 : ℚ) = obj_maxcut [1, 1] gFree :=
  ⟨gFree_decay,
    (score_consistency gFree 4 1 [(0, 1/2)] ([0], 0, 0, [1, 1]) gFree_decay).1⟩

/-- Modelled from the spec: the pseudorandom source (`numpy.random` and
`random`, seeded through the optional `seed` of the invocation surface "for
reproducibility") is not part of the annealing source under `src/`; a seed
determines the entire stream of `(idx, u)` draws the loop consumes. -/
def seeded_draws (prng : ℤ → List (ℕ × ℝ)) (seed : ℤ) : List (ℕ × ℝ) :=
  prng seed

/-- The engine is a function of its draw stream: two completed
`simulated_annealing` calls with the same global temperature, step count,
graph and draws return the same triple, whatever their (unused)
`init_temperature` arguments. -/
theorem sa_functional {a b globalT : ℚ} {n : ℕ} {g : Graph}
    {draws : List (ℕ × ℝ)} {r1 r2 : ℚ × List ℕ × List ℚ}
    (h1 : simulated_annealing a globalT n g draws r1)
    (h2 : simulated_annealing b globalT n g draws r2) : r1 = r2 := by
  obtain ⟨scores1, i1, c1, sol1, ⟨hl1, f1, hr1, he1⟩, rfl⟩ := h1
  obtain ⟨scores2, i2, c2, sol2, ⟨hl2, f2, hr2, he2⟩, rfl⟩ := h2
  obtain rfl : f1 = f2 := run_deterministic hr1 hr2
  simp only [Prod.mk.injEq] at he1 he2
  obtain ⟨rfl, rfl, rfl, rfl⟩ := he1
  obtain ⟨rfl, rfl, rfl, rfl⟩ := he2
  rfl

/-- C9: determinism under a fixed seed — with the seed-to-draw-stream
mapping of the random source, two runs of the engine from the same seed on
the same graph with the same `initTemperature` (argument and module global)
and `numSteps` return identical `(finalScore, finalSolution, trace)`. -/
theorem fixed_seed_determinism (prng : ℤ → List (ℕ × ℝ)) (seed : ℤ)
    (initT globalT : ℚ) (n : ℕ) (g : Graph) (r1 r2 : ℚ × List ℕ × List ℚ)
    (h1 : simulated_annealing initT globalT n g (seeded_draws prng seed) r1)
    (h2 : simulated_annealing initT globalT n g (seeded_draws prng seed) r2) :
    r1 = r2 :=
  sa_functional h1 h2

/-- A completed one-step `simulated_annealing` call on the edgeless graph:
the returned triple is the same for every value of the unused
`init_temperature` argument. -/
theorem gFree_sa (a : ℚ) :
    simulated_annealing a 4 1 gFree [(0, 1/2)] (0, [1, 1], [0]) :=
  ⟨[0], 0, 0, [1, 1], gFree_decay, rfl⟩

/-- C9 witness: two runs from seed 0 of a concrete stream return the same
concrete triple. -/
theorem fixed_seed_determinism_witness :
    simulated_annealing 4 4 1 gFree (seeded_draws (fun _ => [(0, 1/2)]) 0)
      (0, [1, 1], [0]) ∧
    ((0 : ℚ), ([1, 1] : List ℕ), ([0] : List ℚ)) = (0, [1, 1], [0]) :=
  ⟨gFree_sa 4, fixed_seed_determinism (fun _ => [(0, 1/2)]) 0 4 4 1 gFree
    (0, [1, 1], [0]) (0, [1, 1], [0]) (gFree_sa 4) (gFree_sa 4)⟩

/-- C10: the temperature read inside the loop is the shared module-level
`init_temperature`, not the parameter of `simulated_annealing`: for any two
argument values, with the same module-level global and the same draws, the
returned `(curr_score, curr_solution, scores)` are identical — the argument
has no influence on the computation. -/
theorem global_temperature_coupling (a b globalT : ℚ) (n : ℕ) (g : Graph)
    (draws : List (ℕ × ℝ)) (r1 r2 : ℚ × List ℕ × List ℚ)
    (h1 : simulated_annealing a globalT n g draws r1)
    (h2 : simulated_annealing b globalT n g draws r2) :
    r1 = r2 :=
  sa_functional h1 h2

/-- C10 witness: with arguments 3 and 7 but the same global 4 and the same
draw, both runs return the same concrete triple. -/
theorem global_temperature_coupling_witness :
    simulated_annealing 3 4 1 gFree [(0, 1/2)] (0, [1, 1], [0]) ∧
    simulated_annealing 7 4 1 gFree [(0, 1/2)] (0, [1, 1], [0]) ∧
    ((0 : ℚ), ([1, 1] : List ℕ), ([0] : List ℚ)) = (0, [1, 1], [0]) :=
  ⟨gFree_sa 3, gFree_sa 7, global_temperature_coupling 3 7 4 1 gFree
    [(0, 1/2)] (0, [1, 1], [0]) (0, [1, 1], [0]) (gFree_sa 3) (gFree_sa 7)⟩
